import Mathlib

/-!
# Verification of `rusync`'s console progress renderer (`src/console_info.rs`)

This file gives a shallow embedding of the functions of `console_info.rs`
(`ConsoleProgressInfo::progress`, `human_seconds`, `truncate_lossy`,
`erase_line`) and proves / refutes the specification's claims about them.

Rust strings are modelled as Lean `String` (both are sequences of Unicode
scalar values); Rust byte buffers as `List Nat` with each entry `< 256`;
Rust `usize` arithmetic as `Nat`, with the two partial operations of the
source — the unguarded `usize` subtraction producing `file_width` and the
unguarded division producing the percent — modelled as `Option`-valued
computations (`none` models the arithmetic panic of the Rust code).
-/

namespace Rusync

/-! ## UTF-8 encoding (Rust `String::into_bytes`) -/

/-- UTF-8 encoding of a single Unicode scalar value, byte by byte;
mirrors Rust's `char::encode_utf8`. -/
def utf8EncodeChar (c : Char) : List Nat :=
  let v := c.toNat
  if v < 0x80 then
    [v]
  else if v < 0x800 then
    [0xC0 + v / 0x40, 0x80 + v % 0x40]
  else if v < 0x10000 then
    [0xE0 + v / 0x1000, 0x80 + (v / 0x40) % 0x40, 0x80 + v % 0x40]
  else
    [0xF0 + v / 0x40000, 0x80 + (v / 0x1000) % 0x40, 0x80 + (v / 0x40) % 0x40,
      0x80 + v % 0x40]

/-- UTF-8 encoding of a character list. -/
def utf8EncodeList : List Char → List Nat
  | [] => []
  | c :: cs => utf8EncodeChar c ++ utf8EncodeList cs

/-- UTF-8 encoding of a string; mirrors Rust's `String::into_bytes`
(a Rust `String` is by invariant the UTF-8 encoding of its characters). -/
def utf8Encode (s : String) : List Nat :=
  utf8EncodeList s.data

/-- Byte length of a string's UTF-8 encoding; mirrors Rust's `str::len`. -/
def utf8ByteLen (s : String) : Nat :=
  (utf8Encode s).length

/-! ## Lossy UTF-8 decoding (Rust `String::from_utf8_lossy`)

Rust's decoder validates byte sequences with the table of
`core/src/str/validations.rs`: after a leading byte `C2..DF` one
continuation byte `80..BF`; after `E0` a byte `A0..BF`, after `E1..EC` or
`EE..EF` a byte `80..BF`, after `ED` a byte `80..9F`, then a continuation
byte; after `F0` a byte `90..BF`, after `F1..F3` a byte `80..BF`, after
`F4` a byte `80..8F`, then two continuation bytes.  Each maximal invalid
subpart — including an incomplete character at the end of the input — is
replaced by one U+FFFD replacement character.  We model one decoding step
(`utf8StepLossy`, returning the produced character and how many bytes
beyond the leading one were consumed) and iterate it. -/

/-- The Unicode replacement character U+FFFD substituted by
`String::from_utf8_lossy` for each invalid subsequence. -/
def replacementChar : Char := Char.ofNat 0xFFFD

/-- Whether `b2` is a valid second byte after the three-byte leading byte
`b1` (table of `core/src/str/validations.rs`). -/
def valid3Second (b1 b2 : Nat) : Prop :=
  (b1 = 0xE0 ∧ 0xA0 ≤ b2 ∧ b2 ≤ 0xBF) ∨
  (0xE1 ≤ b1 ∧ b1 ≤ 0xEC ∧ 0x80 ≤ b2 ∧ b2 ≤ 0xBF) ∨
  (b1 = 0xED ∧ 0x80 ≤ b2 ∧ b2 ≤ 0x9F) ∨
  (0xEE ≤ b1 ∧ b1 ≤ 0xEF ∧ 0x80 ≤ b2 ∧ b2 ≤ 0xBF)

/-- Whether `b2` is a valid second byte after the four-byte leading byte
`b1` (table of `core/src/str/validations.rs`). -/
def valid4Second (b1 b2 : Nat) : Prop :=
  (b1 = 0xF0 ∧ 0x90 ≤ b2 ∧ b2 ≤ 0xBF) ∨
  (0xF1 ≤ b1 ∧ b1 ≤ 0xF3 ∧ 0x80 ≤ b2 ∧ b2 ≤ 0xBF) ∨
  (b1 = 0xF4 ∧ 0x80 ≤ b2 ∧ b2 ≤ 0x8F)

instance (b1 b2 : Nat) : Decidable (valid3Second b1 b2) := by
  unfold valid3Second; infer_instance

instance (b1 b2 : Nat) : Decidable (valid4Second b1 b2) := by
  unfold valid4Second; infer_instance

/-- One step of lossy UTF-8 decoding: given the leading byte `b1` and the
remaining input `rest`, produce the decoded character (or U+FFFD for a
maximal invalid subpart) and the number of bytes consumed from `rest`. -/
def utf8StepLossy (b1 : Nat) (rest : List Nat) : Char × Nat :=
  if b1 ≤ 0x7F then
    (Char.ofNat b1, 0)
  else if 0xC2 ≤ b1 ∧ b1 ≤ 0xDF then
    match rest with
    | [] => (replacementChar, 0)
    | b2 :: _ =>
      if 0x80 ≤ b2 ∧ b2 ≤ 0xBF then
        (Char.ofNat ((b1 - 0xC0) * 0x40 + (b2 - 0x80)), 1)
      else
        (replacementChar, 0)
  else if 0xE0 ≤ b1 ∧ b1 ≤ 0xEF then
    match rest with
    | [] => (replacementChar, 0)
    | b2 :: rest2 =>
      if valid3Second b1 b2 then
        match rest2 with
        | [] => (replacementChar, 1)
        | b3 :: _ =>
          if 0x80 ≤ b3 ∧ b3 ≤ 0xBF then
            (Char.ofNat ((b1 - 0xE0) * 0x1000 + (b2 - 0x80) * 0x40 + (b3 - 0x80)), 2)
          else
            (replacementChar, 1)
      else
        (replacementChar, 0)
  else if 0xF0 ≤ b1 ∧ b1 ≤ 0xF4 then
    match rest with
    | [] => (replacementChar, 0)
    | b2 :: rest2 =>
      if valid4Second b1 b2 then
        match rest2 with
        | [] => (replacementChar, 1)
        | b3 :: rest3 =>
          if 0x80 ≤ b3 ∧ b3 ≤ 0xBF then
            match rest3 with
            | [] => (replacementChar, 2)
            | b4 :: _ =>
              if 0x80 ≤ b4 ∧ b4 ≤ 0xBF then
                (Char.ofNat ((b1 - 0xF0) * 0x40000 + (b2 - 0x80) * 0x1000 +
                  (b3 - 0x80) * 0x40 + (b4 - 0x80)), 3)
              else
                (replacementChar, 2)
          else
            (replacementChar, 1)
      else
        (replacementChar, 0)
  else
    (replacementChar, 0)

/-- Iteration of `utf8StepLossy` with explicit fuel (structural recursion so
that the definition computes; each step consumes at least the leading byte,
so fuel equal to the input length is always sufficient). -/
def utf8DecodeLossyFuel : Nat → List Nat → List Char
  | _, [] => []
  | 0, _ :: _ => []
  | fuel + 1, b1 :: rest =>
    let step := utf8StepLossy b1 rest
    step.1 :: utf8DecodeLossyFuel fuel (rest.drop step.2)

/-- Lossy UTF-8 decoding of a byte sequence; mirrors Rust's
`String::from_utf8_lossy` (WHATWG maximal-subpart substitution of U+FFFD). -/
def utf8DecodeLossy (bs : List Nat) : List Char :=
  utf8DecodeLossyFuel bs.length bs

/-! ## Strict UTF-8 decoding (Rust `String::from_utf8`)

Same validation table, but any invalid or incomplete sequence is an error
(`none`) instead of being replaced. -/

/-- One step of strict UTF-8 decoding: `none` models Rust's `Err`. -/
def utf8StepStrict (b1 : Nat) (rest : List Nat) : Option (Char × Nat) :=
  if b1 ≤ 0x7F then
    some (Char.ofNat b1, 0)
  else if 0xC2 ≤ b1 ∧ b1 ≤ 0xDF then
    match rest with
    | [] => none
    | b2 :: _ =>
      if 0x80 ≤ b2 ∧ b2 ≤ 0xBF then
        some (Char.ofNat ((b1 - 0xC0) * 0x40 + (b2 - 0x80)), 1)
      else
        none
  else if 0xE0 ≤ b1 ∧ b1 ≤ 0xEF then
    match rest with
    | [] => none
    | b2 :: rest2 =>
      if valid3Second b1 b2 then
        match rest2 with
        | [] => none
        | b3 :: _ =>
          if 0x80 ≤ b3 ∧ b3 ≤ 0xBF then
            some (Char.ofNat ((b1 - 0xE0) * 0x1000 + (b2 - 0x80) * 0x40 + (b3 - 0x80)), 2)
          else
            none
      else
        none
  else if 0xF0 ≤ b1 ∧ b1 ≤ 0xF4 then
    match rest with
    | [] => none
    | b2 :: rest2 =>
      if valid4Second b1 b2 then
        match rest2 with
        | [] => none
        | b3 :: rest3 =>
          if 0x80 ≤ b3 ∧ b3 ≤ 0xBF then
            match rest3 with
            | [] => none
            | b4 :: _ =>
              if 0x80 ≤ b4 ∧ b4 ≤ 0xBF then
                some (Char.ofNat ((b1 - 0xF0) * 0x40000 + (b2 - 0x80) * 0x1000 +
                  (b3 - 0x80) * 0x40 + (b4 - 0x80)), 3)
              else
                none
          else
            none
      else
        none
  else
    none

/-- Iteration of `utf8StepStrict` with explicit fuel (structural recursion
so that the definition computes; fuel equal to the input length is always
sufficient). -/
def utf8DecodeStrictFuel : Nat → List Nat → Option (List Char)
  | _, [] => some []
  | 0, _ :: _ => none
  | fuel + 1, b1 :: rest =>
    match utf8StepStrict b1 rest with
    | none => none
    | some step => (utf8DecodeStrictFuel fuel (rest.drop step.2)).map (step.1 :: ·)

/-- Strict UTF-8 decoding; mirrors Rust's `String::from_utf8`
(`none` models the `Err` case). -/
def utf8DecodeStrict (bs : List Nat) : Option (List Char) :=
  utf8DecodeStrictFuel bs.length bs

/-! ## Rust formatting primitives

Rust's `format!` width specifiers count characters: `{:02}` zero-pads a
number on the left to at least two characters, `{:>3}` space-pads on the
left to at least three, `{:<w$}` space-pads on the right to at least `w`.
`Nat.repr` is the decimal rendering, as Rust's `Display` for integers. -/

/-- Rust `format!("{:02}", n)`: decimal digits zero-padded on the left to
at least two characters. -/
def zeroPad2 (n : Nat) : String :=
  String.mk (List.replicate (2 - (Nat.repr n).length) '0') ++ Nat.repr n

/-- Rust `format!("{:>w$}", s)`: space-padded on the left to at least `w`
characters. -/
def padLeft (s : String) (w : Nat) : String :=
  String.mk (List.replicate (w - s.length) ' ') ++ s

/-- Rust `format!("{:<w$}", s)`: space-padded on the right to at least `w`
characters. -/
def padRight (s : String) (w : Nat) : String :=
  s ++ String.mk (List.replicate (w - s.length) ' ')

/-! ## The functions of `console_info.rs` -/

/-- `human_seconds` (`console_info.rs:95-100`):
`format!("{:02}:{:02}:{:02}", s / 3600, (s / 60) % 60, s % 60)`. -/
def human_seconds (s : Nat) : String :=
  let hours := s / 3600
  let minutes := (s / 60) % 60
  let seconds := s % 60
  zeroPad2 hours ++ ":" ++ zeroPad2 minutes ++ ":" ++ zeroPad2 seconds

/-- `truncate_lossy` (`console_info.rs:102-111`): convert to UTF-8 bytes,
truncate the byte vector to `maxsize` entries, decode lossily. -/
def truncate_lossy (text : String) (maxsize : Nat) : String :=
  String.mk (utf8DecodeLossy ((utf8Encode text).take maxsize))

/-- Modelled from the spec: the `Progress` snapshot record produced by the
external sync engine.  Its declaration lives in `src/progress.rs`, which is
not among the sources; the fields and their meaning are those the spec's
data model lists and exactly those `ConsoleProgressInfo::progress` reads.
Machine integers are modelled as `Nat`. -/
structure Progress where
  index : Nat
  num_files : Nat
  current_file : String
  file_done : Nat
  file_size : Nat
  eta : Nat

/-- The console progress sink (`console_info.rs:12-13`).  The Rust struct
`ConsoleProgressInfo` has no fields, so it carries no state between calls. -/
structure ConsoleProgressInfo where

/-- The filename byte budget computed by `ConsoleProgressInfo::progress`
(`console_info.rs:38-48`): `line_width - widgets_width - 5 - 1` on `usize`,
where `widgets_width = 3 + index.to_string().len() +
num_files.to_string().len() + eta_str.len()`.  The subtraction is
unguarded; `none` models the `usize` underflow panic when the terminal is
narrower than the widgets. -/
def fileWidth (p : Progress) (line_width : Nat) : Option Nat :=
  let eta_width := utf8ByteLen (human_seconds p.eta)
  let index_width := utf8ByteLen (Nat.repr p.index)
  let num_files_width := utf8ByteLen (Nat.repr p.num_files)
  let widgets_width := 3 + index_width + num_files_width + eta_width
  let num_separators := 5
  if widgets_width + num_separators + 1 ≤ line_width then
    some (line_width - widgets_width - num_separators - 1)
  else
    none

/-- The percent computed by `ConsoleProgressInfo::progress`
(`console_info.rs:56`): `(file_done * 100) / file_size` on `usize`.  The
division is unguarded; `none` models the division-by-zero panic when
`file_size = 0`. -/
def filePercent (p : Progress) : Option Nat :=
  if p.file_size = 0 then none
  else some (p.file_done * 100 / p.file_size)

/-- The line emitted by `ConsoleProgressInfo::progress`
(`console_info.rs:37-62`):
`print!("{:>3}% {}/{} {} {:<}\r", file_percent, index, num_files,
current_file, eta_str)` where `current_file` has been truncated to
`file_width` bytes and right-padded to `file_width` characters.  `none`
models the two arithmetic panics (`fileWidth` underflow, `filePercent`
division by zero). -/
def renderProgressLine (p : Progress) (line_width : Nat) : Option String :=
  match fileWidth p line_width, filePercent p with
  | some fw, some pct =>
    let eta_str := human_seconds p.eta
    let current_file := padRight (truncate_lossy p.current_file fw) fw
    some (padLeft (Nat.repr pct) 3 ++ "% " ++ Nat.repr p.index ++ "/" ++
      Nat.repr p.num_files ++ " " ++ current_file ++ " " ++ eta_str ++ "\r")
  | _, _ => none

/-- `erase_line` (`console_info.rs:87-93`): build a byte buffer of
`line_width` copies of byte 32, convert with `String::from_utf8(...)
.unwrap()`, and print it followed by a carriage return.  `none` models the
`unwrap` panic on invalid UTF-8. -/
def erase_line (line_width : Nat) : Option String :=
  let line := List.replicate line_width 32
  (utf8DecodeStrict line).map (fun cs => String.mk cs ++ "\r")

/-- Decimal digit count of `n`: the length in characters of its decimal
rendering (the spec's "decimal digit count"). -/
def decimalDigits (n : Nat) : Nat := (Nat.repr n).length

/-! ## Lemmas: the UTF-8 encoding of one character -/

theorem utf8DecodeLossyFuel_irrel : ∀ (f1 f2 : Nat) (bs : List Nat),
    bs.length ≤ f1 → bs.length ≤ f2 →
    utf8DecodeLossyFuel f1 bs = utf8DecodeLossyFuel f2 bs := by
  intro f1
  induction f1 with
  | zero =>
    intro f2 bs h1 h2
    match bs with
    | [] =>
      match f2 with
      | 0 => rfl
      | _ + 1 => rfl
    | b :: rest => simp at h1
  | succ f1 ih =>
    intro f2 bs h1 h2
    match bs with
    | [] =>
      match f2 with
      | 0 => rfl
      | _ + 1 => rfl
    | b1 :: rest =>
      match f2 with
      | 0 => simp at h2
      | f2 + 1 =>
        rw [utf8DecodeLossyFuel, utf8DecodeLossyFuel]
        have hd : (rest.drop (utf8StepLossy b1 rest).2).length ≤ rest.length := by
          simp [List.length_drop]
        simp only [List.length_cons] at h1 h2
        rw [ih f2 _ (by omega) (by omega)]

theorem utf8DecodeLossyFuel_of_le (fuel : Nat) (bs : List Nat) (h : bs.length ≤ fuel) :
    utf8DecodeLossyFuel fuel bs = utf8DecodeLossy bs :=
  utf8DecodeLossyFuel_irrel fuel bs.length bs h (Nat.le_refl _)

theorem utf8DecodeStrictFuel_irrel : ∀ (f1 f2 : Nat) (bs : List Nat),
    bs.length ≤ f1 → bs.length ≤ f2 →
    utf8DecodeStrictFuel f1 bs = utf8DecodeStrictFuel f2 bs := by
  intro f1
  induction f1 with
  | zero =>
    intro f2 bs h1 h2
    match bs with
    | [] =>
      match f2 with
      | 0 => rfl
      | _ + 1 => rfl
    | b :: rest => simp at h1
  | succ f1 ih =>
    intro f2 bs h1 h2
    match bs with
    | [] =>
      match f2 with
      | 0 => rfl
      | _ + 1 => rfl
    | b1 :: rest =>
      match f2 with
      | 0 => simp at h2
      | f2 + 1 =>
        rw [utf8DecodeStrictFuel, utf8DecodeStrictFuel]
        have hd : ∀ k : Nat, (rest.drop k).length ≤ rest.length := by
          intro k; simp [List.length_drop]
        simp only [List.length_cons] at h1 h2
        cases utf8StepStrict b1 rest with
        | none => rfl
        | some step =>
          dsimp only
          rw [ih f2 _ (by have := hd step.2; omega) (by have := hd step.2; omega)]

theorem utf8DecodeStrictFuel_of_le (fuel : Nat) (bs : List Nat) (h : bs.length ≤ fuel) :
    utf8DecodeStrictFuel fuel bs = utf8DecodeStrict bs :=
  utf8DecodeStrictFuel_irrel fuel bs.length bs h (Nat.le_refl _)

theorem char_toNat_valid (c : Char) :
    c.toNat < 0xD800 ∨ (0xDFFF < c.toNat ∧ c.toNat < 0x110000) := c.valid

theorem utf8EncodeChar_eq_one {c : Char} (h : c.toNat < 0x80) :
    utf8EncodeChar c = [c.toNat] := by
  simp only [utf8EncodeChar]
  rw [if_pos h]

theorem utf8EncodeChar_eq_two {c : Char} (h1 : 0x80 ≤ c.toNat) (h2 : c.toNat < 0x800) :
    utf8EncodeChar c = [0xC0 + c.toNat / 0x40, 0x80 + c.toNat % 0x40] := by
  simp only [utf8EncodeChar]
  rw [if_neg (by omega), if_pos h2]

theorem utf8EncodeChar_eq_three {c : Char} (h1 : 0x800 ≤ c.toNat) (h2 : c.toNat < 0x10000) :
    utf8EncodeChar c =
      [0xE0 + c.toNat / 0x1000, 0x80 + (c.toNat / 0x40) % 0x40, 0x80 + c.toNat % 0x40] := by
  simp only [utf8EncodeChar]
  rw [if_neg (by omega), if_neg (by omega), if_pos h2]

theorem utf8EncodeChar_eq_four {c : Char} (h1 : 0x10000 ≤ c.toNat) :
    utf8EncodeChar c =
      [0xF0 + c.toNat / 0x40000, 0x80 + (c.toNat / 0x1000) % 0x40,
        0x80 + (c.toNat / 0x40) % 0x40, 0x80 + c.toNat % 0x40] := by
  simp only [utf8EncodeChar]
  rw [if_neg (by omega), if_neg (by omega), if_neg (by omega)]

theorem utf8EncodeChar_length_pos (c : Char) : 1 ≤ (utf8EncodeChar c).length := by
  rcases Nat.lt_or_ge c.toNat 0x80 with h | h
  · rw [utf8EncodeChar_eq_one h]; simp
  rcases Nat.lt_or_ge c.toNat 0x800 with h2 | h2
  · rw [utf8EncodeChar_eq_two h h2]; simp
  rcases Nat.lt_or_ge c.toNat 0x10000 with h3 | h3
  · rw [utf8EncodeChar_eq_three h2 h3]; simp
  · rw [utf8EncodeChar_eq_four h3]; simp

/-! ## Lemmas: single decoding steps -/

theorem utf8StepLossy_ascii {b1 : Nat} (rest : List Nat) (h : b1 ≤ 0x7F) :
    utf8StepLossy b1 rest = (Char.ofNat b1, 0) := by
  unfold utf8StepLossy
  rw [if_pos h]

theorem utf8StepLossy_two {b1 b2 : Nat} (rest : List Nat)
    (h1 : 0xC2 ≤ b1) (h2 : b1 ≤ 0xDF) (h3 : 0x80 ≤ b2) (h4 : b2 ≤ 0xBF) :
    utf8StepLossy b1 (b2 :: rest) =
      (Char.ofNat ((b1 - 0xC0) * 0x40 + (b2 - 0x80)), 1) := by
  unfold utf8StepLossy
  rw [if_neg (by omega), if_pos ⟨h1, h2⟩]
  exact if_pos ⟨h3, h4⟩

theorem utf8StepLossy_two_end {b1 : Nat} (h1 : 0xC2 ≤ b1) (h2 : b1 ≤ 0xDF) :
    utf8StepLossy b1 [] = (replacementChar, 0) := by
  unfold utf8StepLossy
  rw [if_neg (by omega), if_pos ⟨h1, h2⟩]

theorem utf8StepLossy_three {b1 b2 b3 : Nat} (rest : List Nat)
    (h1 : 0xE0 ≤ b1) (h2 : b1 ≤ 0xEF) (hv : valid3Second b1 b2)
    (h3 : 0x80 ≤ b3) (h4 : b3 ≤ 0xBF) :
    utf8StepLossy b1 (b2 :: b3 :: rest) =
      (Char.ofNat ((b1 - 0xE0) * 0x1000 + (b2 - 0x80) * 0x40 + (b3 - 0x80)), 2) := by
  unfold utf8StepLossy
  rw [if_neg (by omega), if_neg (by omega), if_pos ⟨h1, h2⟩]
  show (if valid3Second b1 b2 then _ else _) = _
  rw [if_pos hv]
  exact if_pos ⟨h3, h4⟩

theorem utf8StepLossy_three_end {b1 : Nat} (h1 : 0xE0 ≤ b1) (h2 : b1 ≤ 0xEF) :
    utf8StepLossy b1 [] = (replacementChar, 0) := by
  unfold utf8StepLossy
  rw [if_neg (by omega), if_neg (by omega), if_pos ⟨h1, h2⟩]

theorem utf8StepLossy_three_end2 {b1 b2 : Nat}
    (h1 : 0xE0 ≤ b1) (h2 : b1 ≤ 0xEF) (hv : valid3Second b1 b2) :
    utf8StepLossy b1 [b2] = (replacementChar, 1) := by
  unfold utf8StepLossy
  rw [if_neg (by omega), if_neg (by omega), if_pos ⟨h1, h2⟩]
  exact if_pos hv

theorem utf8StepLossy_four {b1 b2 b3 b4 : Nat} (rest : List Nat)
    (h1 : 0xF0 ≤ b1) (h2 : b1 ≤ 0xF4) (hv : valid4Second b1 b2)
    (h3 : 0x80 ≤ b3) (h4 : b3 ≤ 0xBF) (h5 : 0x80 ≤ b4) (h6 : b4 ≤ 0xBF) :
    utf8StepLossy b1 (b2 :: b3 :: b4 :: rest) =
      (Char.ofNat ((b1 - 0xF0) * 0x40000 + (b2 - 0x80) * 0x1000 +
        (b3 - 0x80) * 0x40 + (b4 - 0x80)), 3) := by
  unfold utf8StepLossy
  rw [if_neg (by omega), if_neg (by omega), if_neg (by omega), if_pos ⟨h1, h2⟩]
  show (if valid4Second b1 b2 then _ else _) = _
  rw [if_pos hv]
  show (if 0x80 ≤ b3 ∧ b3 ≤ 0xBF then _ else _) = _
  rw [if_pos ⟨h3, h4⟩]
  exact if_pos ⟨h5, h6⟩

theorem utf8StepLossy_four_end {b1 : Nat} (h1 : 0xF0 ≤ b1) (h2 : b1 ≤ 0xF4) :
    utf8StepLossy b1 [] = (replacementChar, 0) := by
  unfold utf8StepLossy
  rw [if_neg (by omega), if_neg (by omega), if_neg (by omega), if_pos ⟨h1, h2⟩]

theorem utf8StepLossy_four_end2 {b1 b2 : Nat}
    (h1 : 0xF0 ≤ b1) (h2 : b1 ≤ 0xF4) (hv : valid4Second b1 b2) :
    utf8StepLossy b1 [b2] = (replacementChar, 1) := by
  unfold utf8StepLossy
  rw [if_neg (by omega), if_neg (by omega), if_neg (by omega), if_pos ⟨h1, h2⟩]
  exact if_pos hv

theorem utf8StepLossy_four_end3 {b1 b2 b3 : Nat}
    (h1 : 0xF0 ≤ b1) (h2 : b1 ≤ 0xF4) (hv : valid4Second b1 b2)
    (h3 : 0x80 ≤ b3) (h4 : b3 ≤ 0xBF) :
    utf8StepLossy b1 [b2, b3] = (replacementChar, 2) := by
  unfold utf8StepLossy
  rw [if_neg (by omega), if_neg (by omega), if_neg (by omega), if_pos ⟨h1, h2⟩]
  show (if valid4Second b1 b2 then _ else _) = _
  rw [if_pos hv]
  exact if_pos ⟨h3, h4⟩

theorem utf8DecodeLossy_cons (b1 : Nat) (rest : List Nat) :
    utf8DecodeLossy (b1 :: rest) =
      (utf8StepLossy b1 rest).1 ::
        utf8DecodeLossy (rest.drop (utf8StepLossy b1 rest).2) := by
  show utf8DecodeLossyFuel (b1 :: rest).length (b1 :: rest) = _
  rw [List.length_cons, utf8DecodeLossyFuel]
  rw [utf8DecodeLossyFuel_of_le _ _ (by simp [List.length_drop])]

theorem utf8DecodeStrict_cons (b1 : Nat) (rest : List Nat) :
    utf8DecodeStrict (b1 :: rest) =
      match utf8StepStrict b1 rest with
      | none => none
      | some step => (utf8DecodeStrict (rest.drop step.2)).map (step.1 :: ·) := by
  show utf8DecodeStrictFuel (b1 :: rest).length (b1 :: rest) = _
  rw [List.length_cons, utf8DecodeStrictFuel]
  cases utf8StepStrict b1 rest with
  | none => rfl
  | some step =>
    dsimp only
    rw [utf8DecodeStrictFuel_of_le _ _ (by simp [List.length_drop])]

/-! ## Lemmas: decoding an encoded character -/

/-- Decoding a validly encoded character followed by anything yields the
character back and continues after its bytes. -/
theorem utf8DecodeLossy_encChar (c : Char) (bs : List Nat) :
    utf8DecodeLossy (utf8EncodeChar c ++ bs) = c :: utf8DecodeLossy bs := by
  rcases char_toNat_valid c with hval | hval
  all_goals {
    first
    | (rcases Nat.lt_or_ge c.toNat 0x80 with h | h
       · rw [utf8EncodeChar_eq_one h]
         rw [List.cons_append, List.nil_append]
         rw [utf8DecodeLossy_cons, utf8StepLossy_ascii _ (by omega)]
         simp
       rcases Nat.lt_or_ge c.toNat 0x800 with h2 | h2
       · rw [utf8EncodeChar_eq_two h h2]
         simp only [List.cons_append, List.nil_append]
         rw [utf8DecodeLossy_cons,
           utf8StepLossy_two _ (by omega) (by omega) (by omega) (by omega)]
         have harg : (0xC0 + c.toNat / 0x40 - 0xC0) * 0x40 +
             (0x80 + c.toNat % 0x40 - 0x80) = c.toNat := by omega
         rw [harg]; simp
       rcases Nat.lt_or_ge c.toNat 0x10000 with h3 | h3
       · rw [utf8EncodeChar_eq_three h2 h3]
         simp only [List.cons_append, List.nil_append]
         rw [utf8DecodeLossy_cons,
           utf8StepLossy_three _ (by omega) (by omega)
             (by simp only [valid3Second]; omega) (by omega) (by omega)]
         have harg : (0xE0 + c.toNat / 0x1000 - 0xE0) * 0x1000 +
             (0x80 + (c.toNat / 0x40) % 0x40 - 0x80) * 0x40 +
             (0x80 + c.toNat % 0x40 - 0x80) = c.toNat := by omega
         rw [harg]; simp
       · rw [utf8EncodeChar_eq_four h3]
         simp only [List.cons_append, List.nil_append]
         rw [utf8DecodeLossy_cons,
           utf8StepLossy_four _ (by omega) (by omega)
             (by simp only [valid4Second]; omega)
             (by omega) (by omega) (by omega) (by omega)]
         have harg : (0xF0 + c.toNat / 0x40000 - 0xF0) * 0x40000 +
             (0x80 + (c.toNat / 0x1000) % 0x40 - 0x80) * 0x1000 +
             (0x80 + (c.toNat / 0x40) % 0x40 - 0x80) * 0x40 +
             (0x80 + c.toNat % 0x40 - 0x80) = c.toNat := by omega
         rw [harg]; simp) }

theorem utf8EncodeChar_replacement : utf8EncodeChar replacementChar = [0xEF, 0xBF, 0xBD] := by
  decide

/-- Decoding a strict, nonempty prefix of one character's encoding yields a
single replacement character (Rust replaces the whole incomplete tail by
one U+FFFD). -/
theorem utf8DecodeLossy_encChar_take (c : Char) (k : Nat) (hk1 : 1 ≤ k)
    (hk2 : k < (utf8EncodeChar c).length) :
    utf8DecodeLossy ((utf8EncodeChar c).take k) = [replacementChar] := by
  rcases char_toNat_valid c with hval | hval
  all_goals {
    first
    | (rcases Nat.lt_or_ge c.toNat 0x80 with h | h
       · rw [utf8EncodeChar_eq_one h] at hk2
         simp at hk2; omega
       rcases Nat.lt_or_ge c.toNat 0x800 with h2 | h2
       · rw [utf8EncodeChar_eq_two h h2] at hk2 ⊢
         simp only [List.length_cons, List.length_nil] at hk2
         have hk : k = 1 := by omega
         subst hk
         simp only [List.take_succ_cons, List.take_zero]
         rw [utf8DecodeLossy_cons, utf8StepLossy_two_end (by omega) (by omega)]
         simp [utf8DecodeLossy, utf8DecodeLossyFuel]
       rcases Nat.lt_or_ge c.toNat 0x10000 with h3 | h3
       · rw [utf8EncodeChar_eq_three h2 h3] at hk2 ⊢
         simp only [List.length_cons, List.length_nil] at hk2
         have hk : k = 1 ∨ k = 2 := by omega
         rcases hk with hk | hk
         all_goals subst hk
         · simp only [List.take_succ_cons, List.take_zero]
           rw [utf8DecodeLossy_cons, utf8StepLossy_three_end (by omega) (by omega)]
           simp [utf8DecodeLossy, utf8DecodeLossyFuel]
         · simp only [List.take_succ_cons, List.take_zero]
           rw [utf8DecodeLossy_cons,
             utf8StepLossy_three_end2 (by omega) (by omega)
               (by simp only [valid3Second]; omega)]
           simp [utf8DecodeLossy, utf8DecodeLossyFuel]
       · rw [utf8EncodeChar_eq_four h3] at hk2 ⊢
         simp only [List.length_cons, List.length_nil] at hk2
         have hk : k = 1 ∨ k = 2 ∨ k = 3 := by omega
         rcases hk with hk | hk | hk
         all_goals subst hk
         · simp only [List.take_succ_cons, List.take_zero]
           rw [utf8DecodeLossy_cons, utf8StepLossy_four_end (by omega) (by omega)]
           simp [utf8DecodeLossy, utf8DecodeLossyFuel]
         · simp only [List.take_succ_cons, List.take_zero]
           rw [utf8DecodeLossy_cons,
             utf8StepLossy_four_end2 (by omega) (by omega)
               (by simp only [valid4Second]; omega)]
           simp [utf8DecodeLossy, utf8DecodeLossyFuel]
         · simp only [List.take_succ_cons, List.take_zero]
           rw [utf8DecodeLossy_cons,
             utf8StepLossy_four_end3 (by omega) (by omega)
               (by simp only [valid4Second]; omega) (by omega) (by omega)]
           simp [utf8DecodeLossy, utf8DecodeLossyFuel]) }

/-- Decoding a full valid encoding is the identity. -/
theorem utf8DecodeLossy_encList (cs : List Char) :
    utf8DecodeLossy (utf8EncodeList cs) = cs := by
  induction cs with
  | nil => simp [utf8EncodeList, utf8DecodeLossy, utf8DecodeLossyFuel]
  | cons c cs ih => rw [utf8EncodeList, utf8DecodeLossy_encChar, ih]

/-- Decoding a `k`-byte prefix of a valid encoding yields at most `k`
characters, whose re-encoding takes at most `k + 2` bytes (the excess can
only come from the single 3-byte U+FFFD replacing a split character, which
ate at least one byte of the budget). -/
theorem utf8DecodeLossy_take_encList (cs : List Char) : ∀ k : Nat,
    (utf8DecodeLossy ((utf8EncodeList cs).take k)).length ≤ k ∧
    (utf8EncodeList (utf8DecodeLossy ((utf8EncodeList cs).take k))).length ≤ k + 2 := by
  induction cs with
  | nil =>
    intro k
    simp [utf8EncodeList, utf8DecodeLossy, utf8DecodeLossyFuel]
  | cons c cs ih =>
    intro k
    rcases Nat.eq_zero_or_pos k with rfl | hk1
    · simp [utf8DecodeLossy, utf8DecodeLossyFuel, utf8EncodeList]
    rcases Nat.lt_or_ge k (utf8EncodeChar c).length with hk | hk
    · rw [utf8EncodeList, List.take_append_eq_append_take,
        Nat.sub_eq_zero_of_le (Nat.le_of_lt hk), List.take_zero, List.append_nil,
        utf8DecodeLossy_encChar_take c k hk1 hk]
      constructor
      · simpa using hk1
      · rw [show [replacementChar] = replacementChar :: [] from rfl, utf8EncodeList,
          utf8EncodeChar_replacement]
        simp [utf8EncodeList]
        omega
    · rw [utf8EncodeList, List.take_append_eq_append_take,
        List.take_of_length_le hk, utf8DecodeLossy_encChar]
      obtain ⟨ihc, ihb⟩ := ih (k - (utf8EncodeChar c).length)
      have hpos := utf8EncodeChar_length_pos c
      constructor
      · simp only [List.length_cons]
        omega
      · rw [utf8EncodeList]
        simp only [List.length_append]
        omega

/-! ## Lemmas: decimal renderings are ASCII, so Rust `.len()` (bytes) equals
their character count -/

theorem digitChar_range (b : Nat) :
    42 ≤ (Nat.digitChar b).toNat ∧ (Nat.digitChar b).toNat ≤ 102 := by
  rcases b with _|_|_|_|_|_|_|_|_|_|_|_|_|_|_|_|n
  all_goals first
    | decide
    | (simp only [Nat.digitChar]
       repeat rw [if_neg (by omega)]
       decide)

theorem toDigitsCore_mem (P : Char → Prop) (hd : ∀ b, P (Nat.digitChar b)) :
    ∀ (fuel n : Nat) (ds : List Char), (∀ c ∈ ds, P c) →
      ∀ c ∈ Nat.toDigitsCore 10 fuel n ds, P c := by
  intro fuel
  induction fuel with
  | zero =>
    intro n ds hds c hc
    simpa [Nat.toDigitsCore] using hds c hc
  | succ fuel ih =>
    intro n ds hds c hc
    simp only [Nat.toDigitsCore] at hc
    split at hc
    · rcases List.mem_cons.mp hc with rfl | hmem
      · exact hd _
      · exact hds c hmem
    · refine ih (n / 10) (Nat.digitChar (n % 10) :: ds) ?_ c hc
      intro d hd2
      rcases List.mem_cons.mp hd2 with rfl | hmem
      · exact hd _
      · exact hds d hmem

theorem repr_data_chars (n : Nat) :
    ∀ c ∈ (Nat.repr n).data, 42 ≤ c.toNat ∧ c.toNat ≤ 102 := by
  have hdata : (Nat.repr n).data = Nat.toDigitsCore 10 (n + 1) n [] := rfl
  rw [hdata]
  exact toDigitsCore_mem _ digitChar_range (n + 1) n [] (by simp)

theorem utf8EncodeList_append (l1 l2 : List Char) :
    utf8EncodeList (l1 ++ l2) = utf8EncodeList l1 ++ utf8EncodeList l2 := by
  induction l1 with
  | nil => simp [utf8EncodeList]
  | cons c l ih => simp [utf8EncodeList, ih]

theorem utf8EncodeList_length_ascii (l : List Char) (h : ∀ c ∈ l, c.toNat < 0x80) :
    (utf8EncodeList l).length = l.length := by
  induction l with
  | nil => rfl
  | cons c l ih =>
    rw [utf8EncodeList]
    simp only [List.length_append, List.length_cons]
    rw [utf8EncodeChar_eq_one (h c (by simp)), ih (fun d hd => h d (by simp [hd]))]
    simp [Nat.add_comm]

theorem utf8ByteLen_eq_length_of_ascii (s : String) (h : ∀ c ∈ s.data, c.toNat < 0x80) :
    utf8ByteLen s = s.length := by
  unfold utf8ByteLen utf8Encode
  rw [utf8EncodeList_length_ascii s.data h]
  rfl

theorem utf8ByteLen_repr (n : Nat) : utf8ByteLen (Nat.repr n) = (Nat.repr n).length := by
  refine utf8ByteLen_eq_length_of_ascii _ fun c hc => ?_
  have := repr_data_chars n c hc
  omega

theorem zeroPad2_data (n : Nat) :
    (zeroPad2 n).data = List.replicate (2 - (Nat.repr n).length) '0' ++ (Nat.repr n).data := by
  simp [zeroPad2]

theorem human_seconds_ascii (e : Nat) :
    ∀ c ∈ (human_seconds e).data, c.toNat < 0x80 := by
  intro c hc
  have hz : ∀ m : Nat, ∀ d ∈ (zeroPad2 m).data, d.toNat < 0x80 := by
    intro m d hd
    rw [zeroPad2_data] at hd
    rcases List.mem_append.mp hd with hd | hd
    · rw [List.eq_of_mem_replicate hd]; decide
    · have := repr_data_chars m d hd; omega
  simp only [human_seconds, String.data_append] at hc
  rcases List.mem_append.mp hc with hc | hc'
  · rcases List.mem_append.mp hc with hc | hc'
    · rcases List.mem_append.mp hc with hc | hc'
      · rcases List.mem_append.mp hc with hc | hc'
        · exact hz _ c hc
        · have : c = ':' := by simpa using hc'
          subst this; decide
      · exact hz _ c hc'
    · have : c = ':' := by simpa using hc'
      subst this; decide
  · exact hz _ c hc'

theorem utf8ByteLen_human_seconds (e : Nat) :
    utf8ByteLen (human_seconds e) = (human_seconds e).length :=
  utf8ByteLen_eq_length_of_ascii _ (human_seconds_ascii e)

/-! ## Lemmas: lengths of formatted fields -/

theorem repr_length_le_two : ∀ n < 100, (Nat.repr n).length ≤ 2 := by decide

theorem repr_length_le_three : ∀ n < 101, (Nat.repr n).length ≤ 3 := by decide

theorem zeroPad2_length (n : Nat) (h : n < 100) : (zeroPad2 n).length = 2 := by
  have hlen := repr_length_le_two n h
  simp only [zeroPad2, String.length_append]
  simp only [String.length_mk, List.length_replicate]
  omega

theorem zeroPad2_length_ge (n : Nat) : 2 ≤ (zeroPad2 n).length := by
  simp only [zeroPad2, String.length_append]
  simp only [String.length_mk, List.length_replicate]
  omega

theorem padLeft_length (s : String) (w : Nat) (h : s.length ≤ w) :
    (padLeft s w).length = w := by
  simp only [padLeft, String.length_append]
  simp only [String.length_mk, List.length_replicate]
  omega

theorem padRight_length (s : String) (w : Nat) (h : s.length ≤ w) :
    (padRight s w).length = w := by
  simp only [padRight, String.length_append]
  simp only [String.length_mk, List.length_replicate]
  omega

/-! ## Lemmas: `truncate_lossy` -/

theorem truncate_lossy_length_le (s : String) (k : Nat) :
    (truncate_lossy s k).length ≤ k := by
  have := (utf8DecodeLossy_take_encList s.data k).1
  simpa [truncate_lossy, utf8Encode, String.length] using this

theorem truncate_lossy_byteLen_le (s : String) (k : Nat) :
    utf8ByteLen (truncate_lossy s k) ≤ k + 2 := by
  have := (utf8DecodeLossy_take_encList s.data k).2
  simpa [truncate_lossy, utf8ByteLen, utf8Encode] using this

theorem truncate_lossy_of_byteLen_le (s : String) (k : Nat) (h : utf8ByteLen s ≤ k) :
    truncate_lossy s k = s := by
  unfold truncate_lossy
  rw [List.take_of_length_le h, utf8Encode, utf8DecodeLossy_encList]

/-! ## Lemmas: the percent and file-width computations -/

theorem filePercent_eq (p : Progress) (h : 0 < p.file_size) :
    filePercent p = some (p.file_done * 100 / p.file_size) := by
  rw [filePercent, if_neg (by omega)]

theorem percent_le_100 (p : Progress) (h : 0 < p.file_size)
    (hle : p.file_done ≤ p.file_size) : p.file_done * 100 / p.file_size ≤ 100 := by
  have h1 : p.file_done * 100 ≤ p.file_size * 100 := Nat.mul_le_mul_right _ hle
  have h2 : p.file_done * 100 / p.file_size ≤ p.file_size * 100 / p.file_size :=
    Nat.div_le_div_right h1
  have h3 : p.file_size * 100 / p.file_size = 100 := by
    rw [Nat.mul_comm]
    exact Nat.mul_div_cancel 100 h
  omega

theorem utf8DecodeStrict_spaces (w : Nat) :
    utf8DecodeStrict (List.replicate w 32) = some (List.replicate w ' ') := by
  induction w with
  | zero => rfl
  | succ w ih =>
    rw [List.replicate_succ, utf8DecodeStrict_cons]
    have hstep : utf8StepStrict 32 (List.replicate w 32) = some (Char.ofNat 32, 0) := by
      unfold utf8StepStrict
      rw [if_pos (by omega)]
    rw [hstep]
    dsimp only
    rw [List.drop_zero, ih]
    rw [show List.replicate (w + 1) ' ' = ' ' :: List.replicate w ' ' from List.replicate_succ ..]
    rfl

/-! ## The claims -/

/-- C2, counterexample: truncating the 2-byte character `"é"` to 1 byte
slices its encoding, and the lossy decoder substitutes the 3-byte U+FFFD
placeholder, so the result's byte length is 3, which exceeds `max_bytes = 1`
— the claimed budget does not hold when a placeholder is substituted. -/
theorem C2_truncate_byte_budget_cex :
    utf8ByteLen (truncate_lossy "é" 1) = 3 ∧
    ¬ utf8ByteLen (truncate_lossy "é" 1) ≤ 1 := by
  decide

/-- C2, amended: for every text string and every `max_bytes ≥ 0`, the byte
length of `truncate_lossy text max_bytes` is at most `max_bytes + 2`; the
excess over `max_bytes` can only come from the 3-byte placeholder that
replaces a split trailing multi-byte character (which consumed at least one
byte of the budget). -/
theorem C2_truncate_byte_budget (s : String) (k : Nat) :
    utf8ByteLen (truncate_lossy s k) ≤ k + 2 :=
  truncate_lossy_byteLen_le s k

/-- C3: `human_seconds s` is `HH:MM:SS` with `HH = s / 3600` zero-padded to
at least two digits and unbounded above, `MM = (s / 60) % 60` and
`SS = s % 60` zero-padded to exactly two digits, and
`human_seconds 720002 = "200:00:02"` (the hour field grows beyond two
digits rather than erroring). -/
theorem C3_human_seconds_format (s : Nat) :
    human_seconds s =
      zeroPad2 (s / 3600) ++ ":" ++ zeroPad2 ((s / 60) % 60) ++ ":" ++ zeroPad2 (s % 60) ∧
    2 ≤ (zeroPad2 (s / 3600)).length ∧
    (zeroPad2 ((s / 60) % 60)).length = 2 ∧
    (zeroPad2 (s % 60)).length = 2 ∧
    human_seconds 720002 = "200:00:02" := by
  refine ⟨rfl, zeroPad2_length_ge _, zeroPad2_length _ (by omega),
    zeroPad2_length _ (by omega), by decide⟩

/-- C4: the percent computation of `ConsoleProgressInfo::progress` is
defined whenever `file_size > 0`, and for `file_size = 0` it reaches the
unguarded division by zero (modelled by `none`): the core has no guard. -/
theorem C4_percent_division_guard :
    (∀ p : Progress, 0 < p.file_size →
      filePercent p = some (p.file_done * 100 / p.file_size)) ∧
    (∀ p : Progress, p.file_size = 0 → filePercent p = none) := by
  constructor
  · exact fun p h => filePercent_eq p h
  · intro p h
    rw [filePercent, if_pos h]

/-- Witness for C4 at concrete snapshots. -/
theorem C4_percent_division_guard_witness :
    filePercent ⟨1, 2, "a", 3, 6, 0⟩ = some 50 ∧
    filePercent ⟨1, 2, "a", 3, 0, 0⟩ = none :=
  ⟨C4_percent_division_guard.1 ⟨1, 2, "a", 3, 6, 0⟩ (by decide),
    C4_percent_division_guard.2 ⟨1, 2, "a", 3, 0, 0⟩ rfl⟩

/-- C5: for `file_size > 0` and `file_done ≤ file_size` the displayed
percent is `⌊file_done * 100 / file_size⌋` — characterised by the Euclidean
bounds, so it is floored, never rounded — and `file_done = 1, file_size = 3`
yields 33, not 34. -/
theorem C5_percent_floor :
    (∀ p : Progress, 0 < p.file_size → p.file_done ≤ p.file_size →
      ∃ pct, filePercent p = some pct ∧
        pct * p.file_size ≤ p.file_done * 100 ∧
        p.file_done * 100 < (pct + 1) * p.file_size) ∧
    filePercent ⟨1, 1, "", 1, 3, 0⟩ = some 33 ∧
    filePercent ⟨1, 1, "", 1, 3, 0⟩ ≠ some 34 := by
  refine ⟨?_, by decide, by decide⟩
  intro p h hle
  refine ⟨p.file_done * 100 / p.file_size, filePercent_eq p h, ?_, ?_⟩
  · have := Nat.div_mul_le_self (p.file_done * 100) p.file_size
    omega
  · have hdm := Nat.div_add_mod (p.file_done * 100) p.file_size
    have hmod : (p.file_done * 100) % p.file_size < p.file_size :=
      Nat.mod_lt _ h
    have hexp : (p.file_done * 100 / p.file_size + 1) * p.file_size =
        p.file_size * (p.file_done * 100 / p.file_size) + p.file_size := by ring
    rw [hexp]
    omega

/-- Witness for C5 at `file_done = 1, file_size = 3`. -/
theorem C5_percent_floor_witness :
    ∃ pct, filePercent ⟨1, 1, "", 1, 3, 0⟩ = some pct ∧
      pct * 3 ≤ 100 ∧ 100 < (pct + 1) * 3 :=
  C5_percent_floor.1 ⟨1, 1, "", 1, 3, 0⟩ (by decide) (by decide)

/-- C7: `truncate_lossy` is total (it is a total function of its two
arguments, mirroring that the Rust code has no panicking operation): with
budget 0 it returns the empty string, and three 2-byte characters truncated
to 2 bytes yield exactly the first character, whole. -/
theorem C7_truncate_total :
    (∀ s : String, truncate_lossy s 0 = "") ∧
    (∀ c1 c2 c3 : Char, (utf8EncodeChar c1).length = 2 →
      (utf8EncodeChar c2).length = 2 → (utf8EncodeChar c3).length = 2 →
      truncate_lossy (String.mk [c1, c2, c3]) 2 = String.mk [c1]) := by
  constructor
  · intro s
    simp [truncate_lossy, utf8DecodeLossy, utf8DecodeLossyFuel]
  · intro c1 c2 c3 h1 h2 h3
    unfold truncate_lossy utf8Encode
    have hdata : (String.mk [c1, c2, c3]).data = [c1, c2, c3] := rfl
    rw [hdata]
    rw [show utf8EncodeList [c1, c2, c3] =
      utf8EncodeChar c1 ++ (utf8EncodeChar c2 ++ (utf8EncodeChar c3 ++ [])) from rfl]
    rw [List.take_append_eq_append_take, List.take_of_length_le (by omega),
      h1, Nat.sub_self, List.take_zero, List.append_nil]
    rw [show utf8EncodeChar c1 = utf8EncodeChar c1 ++ [] by simp,
      utf8DecodeLossy_encChar]
    rw [show utf8DecodeLossy [] = [] from rfl]

/-- Witness for C7 on the unit test's input: `truncate_lossy "ééé" 2 = "é"`. -/
theorem C7_truncate_total_witness : truncate_lossy "ééé" 2 = "é" :=
  C7_truncate_total.2 'é' 'é' 'é' (by decide) (by decide) (by decide)

/-- C9: when the byte budget is at least the string's byte length,
`truncate_lossy` is the identity. -/
theorem C9_truncate_identity (s : String) (k : Nat) (h : utf8ByteLen s ≤ k) :
    truncate_lossy s k = s :=
  truncate_lossy_of_byteLen_le s k h

/-- Witness for C9: a budget of 5 bytes leaves `"abc"` unchanged. -/
theorem C9_truncate_identity_witness : truncate_lossy "abc" 5 = "abc" :=
  C9_truncate_identity "abc" 5 (by decide)

/-- C6: whenever the terminal width `W` is at least the widget widths
(`3 + digit count of index + digit count of num_files + ETA length`) plus 6,
the filename byte budget is `W` minus the widget widths minus 5 minus 1;
for narrower `W` the unguarded `usize` subtraction underflows (modelled by
`none`) — the computation is not clamped to 0. -/
theorem C6_file_width_budget (p : Progress) (W : Nat) :
    (3 + decimalDigits p.index + decimalDigits p.num_files +
        (human_seconds p.eta).length + 6 ≤ W →
      fileWidth p W = some (W - (3 + decimalDigits p.index + decimalDigits p.num_files +
        (human_seconds p.eta).length) - 5 - 1)) ∧
    (W < 3 + decimalDigits p.index + decimalDigits p.num_files +
        (human_seconds p.eta).length + 6 →
      fileWidth p W = none) := by
  have hb1 := utf8ByteLen_repr p.index
  have hb2 := utf8ByteLen_repr p.num_files
  have hb3 := utf8ByteLen_human_seconds p.eta
  simp only [fileWidth, decimalDigits]
  rw [hb1, hb2, hb3]
  constructor
  · intro h
    rw [if_pos (by omega)]
  · intro h
    rw [if_neg (by omega)]

/-- Witness for C6: at a concrete snapshot the widgets take
`3 + 1 + 2 + 8 = 14` columns, so width 80 leaves a budget of 60 and
width 10 underflows. -/
theorem C6_file_width_budget_witness :
    fileWidth ⟨1, 10, "a.txt", 50, 100, 65⟩ 80 = some 60 ∧
    fileWidth ⟨1, 10, "a.txt", 50, 100, 65⟩ 10 = none := by
  constructor
  · have h := (C6_file_width_budget ⟨1, 10, "a.txt", 50, 100, 65⟩ 80).1 (by decide)
    rw [h]
    decide
  · exact (C6_file_width_budget ⟨1, 10, "a.txt", 50, 100, 65⟩ 10).2 (by decide)

/-- C8: rendering is deterministic and stateless — `ConsoleProgressInfo`
has no fields, so any two sink values are equal, and the emitted line is a
pure function of the snapshot and the terminal width: equal inputs give
identical output lines. -/
theorem C8_render_deterministic :
    (∀ a b : ConsoleProgressInfo, a = b) ∧
    (∀ (p₁ p₂ : Progress) (w₁ w₂ : Nat), p₁ = p₂ → w₁ = w₂ →
      renderProgressLine p₁ w₁ = renderProgressLine p₂ w₂) := by
  constructor
  · intro a b
    cases a
    cases b
    rfl
  · intro p₁ p₂ w₁ w₂ hp hw
    rw [hp, hw]

/-- Witness for C8 at a concrete snapshot and width. -/
theorem C8_render_deterministic_witness :
    renderProgressLine ⟨1, 10, "a.txt", 50, 100, 65⟩ 80 =
      renderProgressLine ⟨1, 10, "a.txt", 50, 100, 65⟩ 80 :=
  C8_render_deterministic.2 _ _ _ _ rfl rfl

/-- C10: `erase_line` is total for every terminal width `w`: the buffer of
`w` copies of byte 32 always decodes strictly (so the `unwrap` never
panics), and the emitted text is exactly `w` spaces followed by a carriage
return and no newline. -/
theorem C10_erase_line_total (w : Nat) :
    erase_line w = some (String.mk (List.replicate w ' ') ++ "\r") ∧
    (String.mk (List.replicate w ' ') ++ "\r").data =
      List.replicate w ' ' ++ ['\r'] ∧
    '\n' ∉ (String.mk (List.replicate w ' ') ++ "\r").data := by
  refine ⟨?_, rfl, ?_⟩
  · simp only [erase_line]
    rw [utf8DecodeStrict_spaces]
    rfl
  · intro hmem
    rw [show (String.mk (List.replicate w ' ') ++ "\r").data =
      List.replicate w ' ' ++ ['\r'] from rfl] at hmem
    rcases List.mem_append.mp hmem with h | h
    · have := List.eq_of_mem_replicate h
      simp at this
    · simp at h

/-- C1, counterexample: at the snapshot `index 1 of 10, file "a.txt",
50 of 100 bytes, eta 65 s` and width 80 the rendered line has 80
characters ending in the carriage return, hence 79 visible columns, while
the claim's sum `3 + 1 + index_digits + 1 + total_digits + 1 + file_width +
1 + eta_len` evaluates to 78: the formula misses one column (the percent
sign). -/
theorem C1_layout_invariant_cex :
    (renderProgressLine ⟨1, 10, "a.txt", 50, 100, 65⟩ 80).map String.length = some 80 ∧
    (renderProgressLine ⟨1, 10, "a.txt", 50, 100, 65⟩ 80).map
      (fun s => s.data.getLast?) = some (some '\r') ∧
    fileWidth ⟨1, 10, "a.txt", 50, 100, 65⟩ 80 = some 60 ∧
    3 + 1 + decimalDigits 1 + 1 + decimalDigits 10 + 1 + 60 + 1 +
      (human_seconds 65).length = 78 ∧
    ¬ (80 - 1 = 78) := by
  refine ⟨by decide, by decide, by decide, by decide, by decide⟩

/-- C1, amended: for every valid snapshot (`file_size > 0`,
`file_done ≤ file_size`, `1 ≤ index ≤ num_files`) and every width `W`
whose computed file budget is `fw`, the rendered line is
`visible ++ "\r"` — it ends in a carriage return, not a newline — and the
visible length in columns is `3 + 1 + 1 + index_digits + 1 + total_digits +
1 + fw + 1 + eta_len`: the claim's formula plus one column for the percent
sign. -/
theorem C1_layout_invariant (p : Progress) (W fw : Nat)
    (hsize : 0 < p.file_size) (hdone : p.file_done ≤ p.file_size)
    (hidx1 : 1 ≤ p.index) (hidx2 : p.index ≤ p.num_files)
    (hfw : fileWidth p W = some fw) :
    ∃ visible : String,
      renderProgressLine p W = some (visible ++ "\r") ∧
      visible.length = 3 + 1 + 1 + decimalDigits p.index + 1 + decimalDigits p.num_files +
        1 + fw + 1 + (human_seconds p.eta).length ∧
      (visible ++ "\r").data.getLast? = some '\r' := by
  have hpct : filePercent p = some (p.file_done * 100 / p.file_size) := filePercent_eq p hsize
  refine ⟨padLeft (Nat.repr (p.file_done * 100 / p.file_size)) 3 ++ "% " ++ Nat.repr p.index ++
    "/" ++ Nat.repr p.num_files ++ " " ++ padRight (truncate_lossy p.current_file fw) fw ++
    " " ++ human_seconds p.eta, ?_, ?_, ?_⟩
  · simp only [renderProgressLine, hfw, hpct]
  · have hple : (Nat.repr (p.file_done * 100 / p.file_size)).length ≤ 3 :=
      repr_length_le_three _ (by have := percent_le_100 p hsize hdone; omega)
    have h1 := padLeft_length (Nat.repr (p.file_done * 100 / p.file_size)) 3 hple
    have h2 := padRight_length (truncate_lossy p.current_file fw) fw
      (truncate_lossy_length_le p.current_file fw)
    simp only [String.length_append, h1, h2, decimalDigits,
      show ("% " : String).length = 2 from rfl,
      show ("/" : String).length = 1 from rfl,
      show (" " : String).length = 1 from rfl]
  · rw [String.data_append]
    rw [show ("\r" : String).data = ['\r'] from rfl]
    exact List.getLast?_concat _

/-- Witness for C1 at a concrete snapshot: width 80 yields budget 60 and a
line of 79 visible columns plus the carriage return. -/
theorem C1_layout_invariant_witness :
    ∃ visible : String,
      renderProgressLine ⟨1, 10, "a.txt", 50, 100, 65⟩ 80 = some (visible ++ "\r") ∧
      visible.length = 3 + 1 + 1 + decimalDigits 1 + 1 + decimalDigits 10 +
        1 + 60 + 1 + (human_seconds 65).length ∧
      (visible ++ "\r").data.getLast? = some '\r' :=
  C1_layout_invariant ⟨1, 10, "a.txt", 50, 100, 65⟩ 80 60 (by decide) (by decide)
    (by decide) (by decide) (by decide)

end Rusync
